import Mathlib

/-!
Verification of the UV-K5 Qt viewer protocol engine
(`tools/qtviewer/k5qtviewer.py`, class `K5Receiver`).

Byte buffers are modelled as `List Nat` (each element a byte value), and
the Python helpers are translated one-to-one:

* `_obfus`            → `obfus` (positional XOR against `OBFUS_TBL`)
* `_calc_crc`         → `calc_crc` (bit-serial CRC-16/XMODEM)
* `_hw_le`/`_word_le` → `hw_le`/`word_le`
* `_send_cmd`         → `send_cmd` (bytearray slice assignment → `setSlice`)
* `_fetch_cmd_packet` → `fetch_cmd_packet`
* `_consume_screen_buffer` → `consume_screen`
* `_apply_diff`       → `apply_diff`
* `_service_button_tx` / `_start_session` / `_requeue_event` /
  `_is_session_fresh` and the dispatch part of `_consume_cmd_buffer`
  → the `BtnState` step functions.

Python `buf[i]` appears only under explicit length guards in the source,
so it is modelled by `byteAt` (default 0 out of range).  Python `x | (y << 8)`
is kept as `x ||| (y <<< 8)`.
-/

/-- Byte access `buf[i]`, defaulting to 0 (all source accesses are guarded). -/
def byteAt (l : List Nat) (i : Nat) : Nat := (l[i]?).getD 0

/-- `OBFUS_TBL` from the source. -/
def OBFUS_TBL : List Nat :=
  [0x16, 0x6c, 0x14, 0xe6, 0x2e, 0x91, 0x0d, 0x40,
   0x21, 0x35, 0xd5, 0x40, 0x13, 0x03, 0xe9, 0x80]

/-- `_obfus` starting at table offset `k`: `buf[i] ^= OBFUS_TBL[i % 16]`. -/
def obfusFrom : Nat → List Nat → List Nat
  | _, [] => []
  | k, b :: rest => (b ^^^ byteAt OBFUS_TBL (k % 16)) :: obfusFrom (k + 1) rest

/-- `_obfus`: XOR the whole buffer against the repeating 16-byte key. -/
def obfus (l : List Nat) : List Nat := obfusFrom 0 l

/-- One shift step of `_calc_crc`'s inner loop. -/
def crc_round (crc : Nat) : Nat :=
  if (crc >>> 15) &&& 1 = 1 then ((crc <<< 1) ^^^ 0x1021) &&& 0xFFFF
  else (crc <<< 1) &&& 0xFFFF

/-- `n` iterations of `crc_round`. -/
def crc_rounds : Nat → Nat → Nat
  | 0, c => c
  | n + 1, c => crc_rounds n (crc_round c)

/-- `_calc_crc` over a byte list: init 0, per byte `crc ^= b << 8` then 8 rounds. -/
def calc_crc (l : List Nat) : Nat :=
  l.foldl (fun c b => crc_rounds 8 (c ^^^ ((b &&& 0xFF) <<< 8))) 0

/-- `_hw_le`: 16-bit little-endian encoding. -/
def hw_le (n : Nat) : List Nat := [n &&& 0xFF, (n >>> 8) &&& 0xFF]

/-- `_word_le`: 32-bit little-endian encoding. -/
def word_le (n : Nat) : List Nat :=
  [n &&& 0xFF, (n >>> 8) &&& 0xFF, (n >>> 16) &&& 0xFF, (n >>> 24) &&& 0xFF]

/-- Python bytearray slice assignment `l[off : off+len(v)] = v`. -/
def setSlice (l : List Nat) (off : Nat) (v : List Nat) : List Nat :=
  l.take off ++ v ++ l.drop (off + v.length)

/-- `_send_cmd`, translated step by step from the bytearray operations
(the serial write is dropped; the produced packet bytes are returned). -/
def send_cmd (msg_type : Nat) (payload : List Nat) : List Nat :=
  let msg0 := setSlice (setSlice (setSlice (List.replicate (4 + payload.length) 0)
                0 (hw_le msg_type)) 2 (hw_le payload.length)) 4 payload
  let msg := if msg0.length % 2 = 1 then msg0 ++ [0] else msg0
  let msg_len := msg.length
  let packet := setSlice (setSlice (setSlice (List.replicate (8 + msg_len) 0)
                  0 [0xAB, 0xCD]) 2 (hw_le msg_len)) 4 msg
  let crc := calc_crc ((packet.drop 4).take msg_len)
  let packet := setSlice packet (4 + msg_len) (hw_le crc)
  let packet := setSlice packet (6 + msg_len) [0xDC, 0xBA]
  let body := obfus ((packet.drop 4).take (msg_len + 2))
  setSlice packet 4 body

/-- `bytes.find` for a two-byte pattern: index of the first occurrence. -/
def findPair (a b : Nat) : List Nat → Option Nat
  | x :: y :: rest =>
      if x = a ∧ y = b then some 0 else (findPair a b (y :: rest)).map (· + 1)
  | _ => none

/-- `_fetch_cmd_packet`: returns the parsed `(type, payload)` (if any) together
with the command buffer as left after the call's `del` operations. -/
def fetch_cmd_packet (buf : List Nat) : Option (Nat × List Nat) × List Nat :=
  if buf.length < 8 then (none, buf)
  else
    match findPair 0xAB 0xCD buf with
    | none =>
        if buf.getLast? = some 0xAB then (none, buf.drop (buf.length - 1))
        else (none, [])
    | some begin2 =>
        let buf2 := buf.drop begin2
        if buf2.length < 8 then (none, buf2)
        else
          let msg_len := byteAt buf2 2 ||| (byteAt buf2 3 <<< 8)
          let packet_end := 6 + msg_len
          let total := packet_end + 2
          if buf2.length < total then (none, buf2)
          else if byteAt buf2 packet_end ≠ 0xDC ∨ byteAt buf2 (packet_end + 1) ≠ 0xBA then
            (none, buf2.drop 2)
          else
            let body := obfus ((buf2.drop 4).take (msg_len + 2))
            let msg := body.take (body.length - 2)
            if msg.length < 2 then (none, buf2.drop total)
            else
              let msg_type := byteAt msg 0 ||| (byteAt msg 1 <<< 8)
              let payload := if 4 ≤ msg.length then msg.drop 4 else []
              (some (msg_type, payload), buf2.drop total)

/-! ### Basic lemmas about the byte-level helpers -/

theorem byteAt_cons_zero (a : Nat) (l : List Nat) : byteAt (a :: l) 0 = a := by
  simp [byteAt]

theorem byteAt_cons_succ (a : Nat) (l : List Nat) (i : Nat) :
    byteAt (a :: l) (i + 1) = byteAt l i := by
  simp [byteAt]

theorem byteAt_append_left (l1 l2 : List Nat) (i : Nat) (h : i < l1.length) :
    byteAt (l1 ++ l2) i = byteAt l1 i := by
  simp [byteAt, List.getElem?_append_left h]

theorem byteAt_append_right (l1 l2 : List Nat) (i : Nat) (h : l1.length ≤ i) :
    byteAt (l1 ++ l2) i = byteAt l2 (i - l1.length) := by
  simp [byteAt, List.getElem?_append_right h]

theorem hw_le_length (n : Nat) : (hw_le n).length = 2 := rfl

theorem word_le_length (n : Nat) : (word_le n).length = 4 := rfl

theorem obfusFrom_length (k : Nat) (l : List Nat) : (obfusFrom k l).length = l.length := by
  induction l generalizing k with
  | nil => rfl
  | cons b rest ih => simp [obfusFrom, ih]

theorem obfus_length (l : List Nat) : (obfus l).length = l.length :=
  obfusFrom_length 0 l

theorem obfusFrom_append (k : Nat) (l1 l2 : List Nat) :
    obfusFrom k (l1 ++ l2) = obfusFrom k l1 ++ obfusFrom (k + l1.length) l2 := by
  induction l1 generalizing k with
  | nil => simp [obfusFrom]
  | cons b rest ih =>
      have hk : k + 1 + rest.length = k + (rest.length + 1) := by omega
      simp only [List.cons_append, obfusFrom, List.append_eq, List.length_cons, ih, hk]

theorem obfusFrom_obfusFrom (k : Nat) (l : List Nat) :
    obfusFrom k (obfusFrom k l) = l := by
  induction l generalizing k with
  | nil => rfl
  | cons b rest ih => simp [obfusFrom, ih, Nat.xor_cancel_right]

theorem obfus_obfus (l : List Nat) : obfus (obfus l) = l :=
  obfusFrom_obfusFrom 0 l

theorem setSlice_length (l v : List Nat) (off : Nat) (h : off + v.length ≤ l.length) :
    (setSlice l off v).length = l.length := by
  simp only [setSlice, List.length_append, List.length_take, List.length_drop]
  omega

theorem and_255_eq_mod (n : Nat) : n &&& 255 = n % 256 := by
  have h := Nat.and_pow_two_sub_one_eq_mod n 8
  norm_num at h
  exact h

theorem hw_le_eq (n : Nat) : hw_le n = [n % 256, n / 256 % 256] := by
  have h8 : n >>> 8 = n / 256 := by
    simp [Nat.shiftRight_eq_div_pow]
  simp [hw_le, and_255_eq_mod, h8]

theorem setSlice_split (pre mid rest w : List Nat) (off : Nat)
    (hoff : pre.length = off) (hlen : w.length = mid.length) :
    setSlice (pre ++ mid ++ rest) off w = pre ++ w ++ rest := by
  subst hoff
  have h1 : List.take pre.length (pre ++ mid ++ rest) = pre := by
    rw [List.append_assoc]
    exact List.take_left' rfl
  have h2 : List.drop (pre.length + w.length) (pre ++ mid ++ rest) = rest := by
    rw [hlen, ← List.length_append]
    exact List.drop_left' rfl
  have h3 : List.drop w.length (mid ++ rest) = rest := List.drop_left' hlen.symm
  simp [setSlice, h1, h2, h3]

theorem setSlice_suffix (pre mid w : List Nat) (off : Nat)
    (hoff : pre.length = off) (hlen : w.length = mid.length) :
    setSlice (pre ++ mid) off w = pre ++ w := by
  have h := setSlice_split pre mid [] w off hoff hlen
  simpa using h

/-- Recombining a split 16-bit little-endian value: `a ||| (b <<< 8) = a + 256 * b`
when `a` is a byte. -/
theorem lor_shift_eq_add (a b : Nat) (h : a < 256) : a ||| (b <<< 8) = a + 256 * b := by
  have hsum : a + 256 * b = 2 ^ 8 * b + a := by ring
  apply Nat.eq_of_testBit_eq
  intro j
  rw [Nat.testBit_lor, Nat.testBit_shiftLeft, hsum,
    Nat.testBit_mul_pow_two_add b (show a < 2 ^ 8 from h) j]
  rcases Nat.lt_or_ge j 8 with hj | hj
  · have hd : ¬ j ≥ 8 := by omega
    simp [hj, hd]
  · have ha : a.testBit j = false :=
      Nat.testBit_eq_false_of_lt
        (lt_of_lt_of_le h (Nat.pow_le_pow_right (show 0 < 2 by omega) hj))
    have hd : ¬ j < 8 := by omega
    simp [hd, hj, ha]

/-! ### Normal form of the encoder output -/

/-- The (padded) command message: `type(LE16) ∥ payloadLen(LE16) ∥ payload`,
with one zero pad byte appended when the length is odd (as built by `_send_cmd`). -/
def cmd_msg (t : Nat) (p : List Nat) : List Nat :=
  let msg0 := hw_le t ++ hw_le p.length ++ p
  if msg0.length % 2 = 1 then msg0 ++ [0] else msg0

theorem build_msg_eq (t : Nat) (p : List Nat) :
    setSlice (setSlice (setSlice (List.replicate (4 + p.length) 0) 0 (hw_le t))
        2 (hw_le p.length)) 4 p
      = hw_le t ++ hw_le p.length ++ p := by
  have e1 : setSlice (List.replicate (4 + p.length) 0) 0 (hw_le t)
      = hw_le t ++ List.replicate (2 + p.length) 0 := by
    have h : 4 + p.length = 2 + (2 + p.length) := by omega
    rw [h, List.replicate_add]
    have h2 := setSlice_split [] (List.replicate 2 0) (List.replicate (2 + p.length) 0)
      (hw_le t) 0 rfl rfl
    simpa using h2
  have e2 : setSlice (hw_le t ++ List.replicate (2 + p.length) 0) 2 (hw_le p.length)
      = hw_le t ++ hw_le p.length ++ List.replicate p.length 0 := by
    rw [List.replicate_add, ← List.append_assoc]
    exact setSlice_split (hw_le t) (List.replicate 2 0) (List.replicate p.length 0)
      (hw_le p.length) 2 rfl rfl
  have e3 : setSlice (hw_le t ++ hw_le p.length ++ List.replicate p.length 0) 4 p
      = hw_le t ++ hw_le p.length ++ p :=
    setSlice_suffix (hw_le t ++ hw_le p.length) (List.replicate p.length 0)
      p 4 (by simp [hw_le]) (by simp)
  rw [e1, e2, e3]

theorem pk1_eq (L : Nat) :
    setSlice (List.replicate (8 + L) 0) 0 [0xAB, 0xCD]
      = [0xAB, 0xCD] ++ List.replicate (6 + L) 0 := by
  have h : 8 + L = 2 + (6 + L) := by omega
  rw [h, List.replicate_add]
  have h2 := setSlice_split [] (List.replicate 2 0) (List.replicate (6 + L) 0)
    [0xAB, 0xCD] 0 rfl rfl
  simpa using h2

theorem pk2_eq (L : Nat) :
    setSlice ([0xAB, 0xCD] ++ List.replicate (6 + L) 0) 2 (hw_le L)
      = [0xAB, 0xCD] ++ hw_le L ++ List.replicate (4 + L) 0 := by
  have h : 6 + L = 2 + (4 + L) := by omega
  rw [h, List.replicate_add, ← List.append_assoc]
  exact setSlice_split [0xAB, 0xCD] (List.replicate 2 0) (List.replicate (4 + L) 0)
    (hw_le L) 2 rfl rfl

theorem pk3_eq (M : List Nat) :
    setSlice ([0xAB, 0xCD] ++ hw_le M.length ++ List.replicate (4 + M.length) 0) 4 M
      = [0xAB, 0xCD] ++ hw_le M.length ++ M ++ List.replicate 4 0 := by
  have h : 4 + M.length = M.length + 4 := by omega
  rw [h, List.replicate_add, ← List.append_assoc]
  exact setSlice_split ([0xAB, 0xCD] ++ hw_le M.length) (List.replicate M.length 0)
    (List.replicate 4 0) M 4 (by simp [hw_le]) (by simp)

theorem crc_arg_eq (M : List Nat) :
    (([0xAB, 0xCD] ++ hw_le M.length ++ M ++ List.replicate 4 0).drop 4).take M.length
      = M := by
  rw [List.append_assoc ([0xAB, 0xCD] ++ hw_le M.length) M (List.replicate 4 0)]
  rw [List.drop_left' (show ([0xAB, 0xCD] ++ hw_le M.length).length = 4 by simp [hw_le])]
  exact List.take_left' rfl

theorem pk4_eq (M : List Nat) (c : Nat) :
    setSlice ([0xAB, 0xCD] ++ hw_le M.length ++ M ++ List.replicate 4 0)
        (4 + M.length) (hw_le c)
      = [0xAB, 0xCD] ++ hw_le M.length ++ M ++ hw_le c ++ List.replicate 2 0 := by
  rw [show List.replicate 4 (0 : Nat) = List.replicate 2 0 ++ List.replicate 2 0 from rfl]
  rw [← List.append_assoc]
  exact setSlice_split ([0xAB, 0xCD] ++ hw_le M.length ++ M) (List.replicate 2 0)
    (List.replicate 2 0) (hw_le c) (4 + M.length) (by simp [hw_le]; try omega) rfl

theorem pk5_eq (M : List Nat) (c : Nat) :
    setSlice ([0xAB, 0xCD] ++ hw_le M.length ++ M ++ hw_le c ++ List.replicate 2 0)
        (6 + M.length) [0xDC, 0xBA]
      = [0xAB, 0xCD] ++ hw_le M.length ++ M ++ hw_le c ++ [0xDC, 0xBA] :=
  setSlice_suffix ([0xAB, 0xCD] ++ hw_le M.length ++ M ++ hw_le c) (List.replicate 2 0)
    [0xDC, 0xBA] (6 + M.length) (by simp [hw_le]; try omega) rfl

theorem body_arg_eq (M : List Nat) (c : Nat) :
    (([0xAB, 0xCD] ++ hw_le M.length ++ M ++ hw_le c ++ [0xDC, 0xBA]).drop 4).take
        (M.length + 2)
      = M ++ hw_le c := by
  rw [List.append_assoc ([0xAB, 0xCD] ++ hw_le M.length ++ M) (hw_le c) [0xDC, 0xBA]]
  rw [List.append_assoc ([0xAB, 0xCD] ++ hw_le M.length) M (hw_le c ++ [0xDC, 0xBA])]
  rw [List.drop_left' (show ([0xAB, 0xCD] ++ hw_le M.length).length = 4 by simp [hw_le])]
  rw [← List.append_assoc]
  exact List.take_left' (by simp [hw_le])

theorem final_eq (M : List Nat) (c : Nat) :
    setSlice ([0xAB, 0xCD] ++ hw_le M.length ++ M ++ hw_le c ++ [0xDC, 0xBA]) 4
        (obfus (M ++ hw_le c))
      = [0xAB, 0xCD] ++ hw_le M.length ++ obfus (M ++ hw_le c) ++ [0xDC, 0xBA] := by
  rw [List.append_assoc ([0xAB, 0xCD] ++ hw_le M.length) M (hw_le c)]
  exact setSlice_split ([0xAB, 0xCD] ++ hw_le M.length) (M ++ hw_le c) [0xDC, 0xBA]
    (obfus (M ++ hw_le c)) 4 (by simp [hw_le]) (by simp [obfus_length])

/-- The encoder output in spec form: cleartext header `AB CD`, little-endian
padded message length, obfuscated `message ∥ CRC16(message)` region, cleartext
footer `DC BA`. -/
theorem send_cmd_eq_wire (t : Nat) (p : List Nat) :
    send_cmd t p
      = [0xAB, 0xCD] ++ hw_le (cmd_msg t p).length
          ++ obfus (cmd_msg t p ++ hw_le (calc_crc (cmd_msg t p))) ++ [0xDC, 0xBA] := by
  simp only [send_cmd, cmd_msg, build_msg_eq]
  simp only [pk1_eq, pk2_eq, pk3_eq, crc_arg_eq, pk4_eq, pk5_eq, body_arg_eq, final_eq]

/-! ### Closed form of the decoder on a well-framed packet -/

theorem byteAt_cons4 (a b c d : Nat) (l : List Nat) (i : Nat) :
    byteAt (a :: b :: c :: d :: l) (i + 4) = byteAt l i := by
  have h1 : i + 4 = (i + 3) + 1 := by omega
  have h2 : i + 3 = (i + 2) + 1 := by omega
  have h3 : i + 2 = (i + 1) + 1 := by omega
  rw [h1, byteAt_cons_succ, h2, byteAt_cons_succ, h3, byteAt_cons_succ, byteAt_cons_succ]

theorem drop_cons4 (a b c d : Nat) (l : List Nat) (i : Nat) :
    (a :: b :: c :: d :: l).drop (i + 4) = l.drop i := rfl

/-- `_fetch_cmd_packet` on a buffer that starts with a well-framed packet
(header, length field matching the body, footer) followed by `rest`:
the packet region is de-obfuscated and returned, `rest` is kept. -/
theorem fetch_closed (l0 l1 : Nat) (B C rest : List Nat)
    (hB : B.length = l0 ||| (l1 <<< 8)) (hC : C.length = 2) :
    fetch_cmd_packet ([0xAB, 0xCD, l0, l1] ++ B ++ C ++ [0xDC, 0xBA] ++ rest)
      = (if B.length < 2 then none
         else some (byteAt (obfus B) 0 ||| (byteAt (obfus B) 1 <<< 8),
                    if 4 ≤ B.length then (obfus B).drop 4 else []), rest) := by
  have hQ : [0xAB, 0xCD, l0, l1] ++ B ++ C ++ [0xDC, 0xBA] ++ rest
      = 0xAB :: 0xCD :: l0 :: l1 :: (B ++ (C ++ (0xDC :: 0xBA :: rest))) := by
    simp [List.append_assoc]
  rw [hQ]
  have hfp : findPair 0xAB 0xCD
      (0xAB :: 0xCD :: l0 :: l1 :: (B ++ (C ++ (0xDC :: 0xBA :: rest)))) = some 0 := by
    simp [findPair]
  have hL : (0xAB :: 0xCD :: l0 :: l1 :: (B ++ (C ++ (0xDC :: 0xBA :: rest)))).length
      = 8 + B.length + rest.length := by
    simp [hC]
    omega
  have hb2 : byteAt (0xAB :: 0xCD :: l0 :: l1 :: (B ++ (C ++ (0xDC :: 0xBA :: rest)))) 2
      = l0 := by simp [byteAt]
  have hb3 : byteAt (0xAB :: 0xCD :: l0 :: l1 :: (B ++ (C ++ (0xDC :: 0xBA :: rest)))) 3
      = l1 := by simp [byteAt]
  have hfoot1 : byteAt (0xAB :: 0xCD :: l0 :: l1 :: (B ++ (C ++ (0xDC :: 0xBA :: rest))))
      (6 + B.length) = 0xDC := by
    have h64 : 6 + B.length = (2 + B.length) + 4 := by omega
    rw [h64, byteAt_cons4]
    rw [byteAt_append_right _ _ _ (by omega)]
    have h2 : 2 + B.length - B.length = 2 := by omega
    rw [h2, byteAt_append_right _ _ _ (by omega)]
    rw [hC]
    simp [byteAt]
  have hfoot2 : byteAt (0xAB :: 0xCD :: l0 :: l1 :: (B ++ (C ++ (0xDC :: 0xBA :: rest))))
      (6 + B.length + 1) = 0xBA := by
    have h64 : 6 + B.length + 1 = (3 + B.length) + 4 := by omega
    rw [h64, byteAt_cons4]
    rw [byteAt_append_right _ _ _ (by omega)]
    have h3 : 3 + B.length - B.length = 3 := by omega
    rw [h3, byteAt_append_right _ _ _ (by omega)]
    rw [hC]
    simp [byteAt]
  have hdrop4 : (0xAB :: 0xCD :: l0 :: l1 :: (B ++ (C ++ (0xDC :: 0xBA :: rest)))).drop 4
      = B ++ (C ++ (0xDC :: 0xBA :: rest)) := rfl
  have htake : (B ++ (C ++ (0xDC :: 0xBA :: rest))).take (B.length + 2) = B ++ C := by
    rw [← List.append_assoc]
    exact List.take_left' (by simp [hC])
  have hbody : obfus (B ++ C) = obfus B ++ obfusFrom B.length C := by
    unfold obfus
    rw [obfusFrom_append]
    simp
  have hblen : (obfus B ++ obfusFrom B.length C).length = B.length + 2 := by
    simp [obfus_length, obfusFrom_length, hC]
  have hmsg : (obfus B ++ obfusFrom B.length C).take (B.length + 2 - 2) = obfus B := by
    have h22 : B.length + 2 - 2 = B.length := by omega
    rw [h22]
    exact List.take_left' (obfus_length B)
  have hdroptot : (0xAB :: 0xCD :: l0 :: l1 :: (B ++ (C ++ (0xDC :: 0xBA :: rest)))).drop
      (6 + B.length + 2) = rest := by
    have h84 : 6 + B.length + 2 = (4 + B.length) + 4 := by omega
    rw [h84, drop_cons4]
    have hBl : 4 + B.length = B.length + 4 := by omega
    rw [hBl, List.drop_append]
    have h4 : (4 : Nat) = C.length + 2 := by omega
    rw [h4, List.drop_append]
    rfl
  simp only [fetch_cmd_packet, hfp, List.drop_zero, hL, hb2, hb3, ← hB, hfoot1, hfoot2,
    hdrop4, htake, hbody, hblen, hmsg, hdroptot, obfus_length]
  have c1 : ¬ (8 + B.length + rest.length < 8) := by omega
  have c2 : ¬ (8 + B.length + rest.length < 6 + B.length + 2) := by omega
  have c3 : ¬ ((0xDC : Nat) ≠ 0xDC ∨ (0xBA : Nat) ≠ 0xBA) := by simp
  simp only [c1, c2, c3, if_false, ite_false]
  by_cases hb : B.length < 2
  · simp [hb]
  · simp [hb]

/-! ### Claims C5, C2, C6: the command packet codec -/

theorem cmd_msg_eq (t : Nat) (p : List Nat) :
    cmd_msg t p
      = hw_le t ++ hw_le p.length ++ (if p.length % 2 = 1 then p ++ [0] else p) := by
  simp only [cmd_msg]
  have hlen : (hw_le t ++ hw_le p.length ++ p).length = 4 + p.length := by
    simp only [List.length_append, hw_le_length]
  rw [hlen]
  have hmod : (4 + p.length) % 2 = p.length % 2 := by omega
  rw [hmod]
  by_cases hodd : p.length % 2 = 1
  · rw [if_pos hodd, if_pos hodd, List.append_assoc]
  · rw [if_neg hodd, if_neg hodd]

theorem cmd_msg_length (t : Nat) (p : List Nat) :
    (cmd_msg t p).length = 4 + p.length + p.length % 2 := by
  rw [cmd_msg_eq]
  by_cases hodd : p.length % 2 = 1
  · rw [if_pos hodd]
    simp only [List.length_append, hw_le_length, List.length_cons, List.length_nil]
    omega
  · rw [if_neg hodd]
    simp only [List.length_append, hw_le_length]
    omega

/-- C5: the encoder emits exactly
`AB CD ∥ LE16(paddedLen) ∥ obfuscate(paddedMsg ∥ LE16(crc16(paddedMsg))) ∥ DC BA`,
where the padded message is `LE16(type) ∥ LE16(len payload) ∥ payload (∥ 00 if odd)`,
the CRC is `_calc_crc` (bit-serial CRC-16/XMODEM, init 0, poly 0x1021) over the
unobfuscated padded message, and only the message-plus-CRC region is obfuscated. -/
theorem C5_send_cmd_wire_format (t : Nat) (p : List Nat) :
    send_cmd t p
      = [0xAB, 0xCD] ++ hw_le (cmd_msg t p).length
          ++ obfus (cmd_msg t p ++ hw_le (calc_crc (cmd_msg t p))) ++ [0xDC, 0xBA] :=
  send_cmd_eq_wire t p

/-- The decoder applied to one encoder output: returns the type and the padded
payload, consuming everything.  (General helper behind C2.) -/
theorem fetch_send_cmd (t : Nat) (p : List Nat) (ht : t < 65536)
    (hp : p.length ≤ 65530) :
    fetch_cmd_packet (send_cmd t p)
      = (some (t, if p.length % 2 = 1 then p ++ [0] else p), []) := by
  have hL : (cmd_msg t p).length = 4 + p.length + p.length % 2 := cmd_msg_length t p
  have hLlt : (cmd_msg t p).length < 65536 := by
    rw [hL]; have := Nat.mod_lt p.length (show 0 < 2 by omega); omega
  have hL4 : 4 ≤ (cmd_msg t p).length := by rw [hL]; omega
  -- bring the encoder output into the `fetch_closed` shape
  have hsplit : obfus (cmd_msg t p ++ hw_le (calc_crc (cmd_msg t p)))
      = obfus (cmd_msg t p)
        ++ obfusFrom (cmd_msg t p).length (hw_le (calc_crc (cmd_msg t p))) := by
    unfold obfus
    rw [obfusFrom_append]
    simp
  have hhdr : ([0xAB, 0xCD] : List Nat) ++ hw_le (cmd_msg t p).length
      = [0xAB, 0xCD, (cmd_msg t p).length % 256, (cmd_msg t p).length / 256 % 256] := by
    rw [hw_le_eq]
    rfl
  have hpkt : send_cmd t p
      = [0xAB, 0xCD, (cmd_msg t p).length % 256, (cmd_msg t p).length / 256 % 256]
          ++ obfus (cmd_msg t p)
          ++ obfusFrom (cmd_msg t p).length (hw_le (calc_crc (cmd_msg t p)))
          ++ [0xDC, 0xBA] ++ [] := by
    rw [send_cmd_eq_wire, hsplit, ← hhdr]
    simp [List.append_assoc]
  rw [hpkt]
  have hB : (obfus (cmd_msg t p)).length
      = (cmd_msg t p).length % 256 ||| (((cmd_msg t p).length / 256 % 256) <<< 8) := by
    rw [obfus_length,
      lor_shift_eq_add ((cmd_msg t p).length % 256) ((cmd_msg t p).length / 256 % 256)
        (Nat.mod_lt _ (by omega))]
    have hdiv : (cmd_msg t p).length / 256 < 256 := by omega
    rw [Nat.mod_eq_of_lt hdiv]
    omega
  have hC : (obfusFrom (cmd_msg t p).length (hw_le (calc_crc (cmd_msg t p)))).length
      = 2 := by
    rw [obfusFrom_length, hw_le_length]
  rw [fetch_closed _ _ _ _ _ hB hC]
  rw [obfus_obfus]
  have hnot2 : ¬ ((obfus (cmd_msg t p)).length < 2) := by
    rw [obfus_length]; omega
  have h4le : 4 ≤ (obfus (cmd_msg t p)).length := by
    rw [obfus_length]; omega
  rw [if_neg hnot2, if_pos h4le]
  -- compute the message head bytes and the payload tail
  have hM := cmd_msg_eq t p
  have hb0 : byteAt (cmd_msg t p) 0 = t % 256 := by
    rw [hM, hw_le_eq]
    rfl
  have hb1 : byteAt (cmd_msg t p) 1 = t / 256 % 256 := by
    rw [hM, hw_le_eq]
    rfl
  have htype : byteAt (cmd_msg t p) 0 ||| (byteAt (cmd_msg t p) 1 <<< 8) = t := by
    rw [hb0, hb1,
      lor_shift_eq_add (t % 256) (t / 256 % 256) (Nat.mod_lt _ (by omega))]
    have hdiv : t / 256 < 256 := by omega
    rw [Nat.mod_eq_of_lt hdiv]
    omega
  have hdrop : (cmd_msg t p).drop 4 = (if p.length % 2 = 1 then p ++ [0] else p) := by
    rw [hM]
    exact List.drop_left' (by simp [hw_le])
  rw [htype, hdrop]

/-- C2 counterexample: for the odd-length payload `[1]` the decoder returns the
padded payload `[1, 0]`, not `[1]` — the claimed round-trip identity fails. -/
theorem C2_counterexample :
    fetch_cmd_packet (send_cmd 0 [1]) ≠ (some (0, [1]), []) := by decide

/-- C2 (amended): for `type < 2^16` and payload length at most 65530, decoding
one encoded packet consumes it entirely and returns the type together with the
payload as padded by the encoder — the original payload when its length is even,
the payload with one appended zero byte when its length is odd. -/
theorem C2_roundtrip_padded (t : Nat) (p : List Nat) (ht : t < 65536)
    (hp : p.length ≤ 65530) :
    fetch_cmd_packet (send_cmd t p)
      = (some (t, if p.length % 2 = 1 then p ++ [0] else p), []) :=
  fetch_send_cmd t p ht hp

/-- Witness for C2 (amended) at `t = 5`, `p = [1, 2]`. -/
theorem C2_roundtrip_padded_witness :
    fetch_cmd_packet (send_cmd 5 [1, 2]) = (some (5, [1, 2]), []) := by
  have h := C2_roundtrip_padded 5 [1, 2] (by decide) (by decide)
  simpa using h

/-- C6: the decoder performs no CRC validation — for a well-framed buffered
packet, replacing the two (obfuscated) CRC bytes by any other two bytes leaves
the returned `(type, payload)` and the consumed bytes unchanged. -/
theorem C6_fetch_ignores_crc (l0 l1 : Nat) (B crcA crcB rest : List Nat)
    (hB : B.length = l0 ||| (l1 <<< 8)) (hA : crcA.length = 2) (hBb : crcB.length = 2) :
    fetch_cmd_packet ([0xAB, 0xCD, l0, l1] ++ B ++ crcA ++ [0xDC, 0xBA] ++ rest)
      = fetch_cmd_packet ([0xAB, 0xCD, l0, l1] ++ B ++ crcB ++ [0xDC, 0xBA] ++ rest) := by
  rw [fetch_closed l0 l1 B crcA rest hB hA, fetch_closed l0 l1 B crcB rest hB hBb]

/-- Witness for C6 at a concrete packet with two different CRC byte pairs. -/
theorem C6_fetch_ignores_crc_witness :
    fetch_cmd_packet ([0xAB, 0xCD, 6, 0] ++ [1, 2, 3, 4, 5, 6] ++ [0x11, 0x22]
        ++ [0xDC, 0xBA] ++ [7])
      = fetch_cmd_packet ([0xAB, 0xCD, 6, 0] ++ [1, 2, 3, 4, 5, 6] ++ [0x33, 0x44]
          ++ [0xDC, 0xBA] ++ [7]) :=
  C6_fetch_ignores_crc 6 0 [1, 2, 3, 4, 5, 6] [0x11, 0x22] [0x33, 0x44] [7]
    (by decide) (by decide) (by decide)

/-! ### Display frame decoder (`_consume_screen_buffer`, `_apply_diff`) -/

/-- One screen-decoder outcome, as reported by `_consume_screen_buffer`
(`frame_ready`+"Full frame received", `frame_ready` after a diff, or the
"Ignored frame" status). -/
inductive ScreenEvent where
  | fullFrame
  | diffApplied
  | ignored (msg_type : Nat) (size : Nat)
deriving DecidableEq

/-- `_apply_diff`: apply 9-byte diff chunks `(block, d0..d7)` while at least
9 bytes remain, stopping at the first block index ≥ 128. -/
def apply_diff (frame : List Nat) (payload : List Nat) : List Nat :=
  if payload.length < 9 then frame
  else
    match payload with
    | [] => frame
    | block :: rest =>
        if 128 ≤ block then frame
        else apply_diff (setSlice frame (block * 8) (rest.take 8)) (rest.drop 8)
termination_by payload.length
decreasing_by
  simp only [List.length_drop, List.length_cons]
  omega

/-- `_consume_screen_buffer`: repeatedly resynchronise on the `AA 55` header and
extract display frames.  Returns the remaining receive buffer, the display
frame buffer, and the events emitted (in order). -/
def consume_screen (buf frame : List Nat) : List Nat × List Nat × List ScreenEvent :=
  if h5 : buf.length < 5 then (buf, frame, [])
  else
    match findPair 0xAA 0x55 buf with
    | none =>
        (if 1 < buf.length then buf.drop (buf.length - 1) else buf, frame, [])
    | some hdr =>
        let buf2 := buf.drop hdr
        if buf2.length < 5 then (buf2, frame, [])
        else
          let msg_type := byteAt buf2 2
          let size := (byteAt buf2 3 <<< 8) ||| byteAt buf2 4
          let total := 5 + size
          if htot : buf2.length < total then (buf2, frame, [])
          else
            let payload := (buf2.drop 5).take size
            let rest := buf2.drop total
            if msg_type = 1 ∧ size = 1024 then
              let r := consume_screen rest payload
              (r.1, r.2.1, ScreenEvent.fullFrame :: r.2.2)
            else if msg_type = 2 ∧ size % 9 = 0 then
              let r := consume_screen rest (apply_diff frame payload)
              (r.1, r.2.1, ScreenEvent.diffApplied :: r.2.2)
            else
              let r := consume_screen rest frame
              (r.1, r.2.1, ScreenEvent.ignored msg_type size :: r.2.2)
termination_by buf.length
decreasing_by
  all_goals
    simp only [List.length_drop]
    omega

/-- Feed byte chunks one at a time: each chunk is appended to the receive
buffer and the decoder is run, as in successive `poll` calls. -/
def runChunks (buf frame : List Nat) : List (List Nat) → List Nat × List Nat × List ScreenEvent
  | [] => (buf, frame, [])
  | c :: cs =>
      let r := consume_screen (buf ++ c) frame
      let r2 := runChunks r.1 r.2.1 cs
      (r2.1, r2.2.1, r.2.2 ++ r2.2.2)

/-! ### Lemmas about `apply_diff` -/

theorem apply_diff_nil (frame : List Nat) : apply_diff frame [] = frame := by
  rw [apply_diff.eq_def]
  simp

theorem apply_diff_cons (frame : List Nat) (block : Nat) (rest : List Nat) :
    apply_diff frame (block :: rest)
      = if (block :: rest).length < 9 then frame
        else if 128 ≤ block then frame
        else apply_diff (setSlice frame (block * 8) (rest.take 8)) (rest.drop 8) := by
  rw [apply_diff.eq_def]

theorem apply_diff_stop (frame : List Nat) (b : Nat) (rest : List Nat) (hb : 128 ≤ b) :
    apply_diff frame (b :: rest) = frame := by
  rw [apply_diff_cons]
  by_cases h9 : (b :: rest).length < 9
  · rw [if_pos h9]
  · rw [if_neg h9, if_pos hb]

theorem apply_diff_length (payload frame : List Nat) (hf : frame.length = 1024) :
    (apply_diff frame payload).length = 1024 := by
  have H : ∀ n payload frame, payload.length ≤ n → frame.length = 1024 →
      (apply_diff frame payload).length = 1024 := by
    intro n
    induction n with
    | zero =>
        intro payload frame hle hf
        rw [apply_diff.eq_def, if_pos (by omega)]
        exact hf
    | succ n ih =>
        intro payload frame hle hf
        cases payload with
        | nil => rw [apply_diff_nil]; exact hf
        | cons block rest =>
            rw [apply_diff_cons]
            by_cases h9 : (block :: rest).length < 9
            · rw [if_pos h9]; exact hf
            · rw [if_neg h9]
              by_cases hb : 128 ≤ block
              · rw [if_pos hb]; exact hf
              · rw [if_neg hb]
                apply ih
                · simp only [List.length_drop]
                  simp only [List.length_cons] at hle
                  omega
                · rw [setSlice_length]
                  · exact hf
                  · have h8 : (rest.take 8).length = 8 := by
                      simp only [List.length_take]
                      simp only [List.length_cons] at h9
                      omega
                    rw [h8, hf]
                    omega
  exact H payload.length payload frame le_rfl hf

theorem byteAt_take (l : List Nat) (n j : Nat) (h : j < n) :
    byteAt (l.take n) j = byteAt l j := by
  simp [byteAt, List.getElem?_take, h]

theorem byteAt_drop (l : List Nat) (n j : Nat) : byteAt (l.drop n) j = byteAt l (n + j) := by
  simp [byteAt, List.getElem?_drop]

/-- Pointwise reading of a slice assignment. -/
theorem byteAt_setSlice (l v : List Nat) (off j : Nat) (hov : off + v.length ≤ l.length) :
    byteAt (setSlice l off v) j
      = if off ≤ j ∧ j < off + v.length then byteAt v (j - off) else byteAt l j := by
  have htl : (l.take off).length = off := by
    simp only [List.length_take]
    omega
  unfold setSlice
  by_cases h1 : j < off
  · rw [byteAt_append_left _ _ _ (by simp only [List.length_append, htl]; omega)]
    rw [byteAt_append_left _ _ _ (by omega : j < (l.take off).length)]
    rw [byteAt_take _ _ _ h1, if_neg (by omega)]
  · by_cases h2 : j < off + v.length
    · rw [byteAt_append_left _ _ _ (by simp only [List.length_append, htl]; omega)]
      rw [byteAt_append_right _ _ _ (by omega : (l.take off).length ≤ j)]
      rw [htl, if_pos ⟨by omega, h2⟩]
    · rw [byteAt_append_right _ _ _
        (by simp only [List.length_append, htl]; omega : (l.take off ++ v).length ≤ j)]
      rw [byteAt_drop]
      have hidx : off + v.length + (j - (l.take off ++ v).length) = j := by
        simp only [List.length_append, htl]
        omega
      rw [hidx, if_neg (by omega)]

theorem apply_diff_two_blocks (frame d3 d127 : List Nat) (h3 : d3.length = 8)
    (h127 : d127.length = 8) :
    apply_diff frame (3 :: (d3 ++ 127 :: d127))
      = setSlice (setSlice frame 24 d3) 1016 d127 := by
  rw [apply_diff_cons]
  rw [if_neg (by simp [h3, h127]), if_neg (by omega)]
  rw [show (d3 ++ 127 :: d127).take 8 = d3 from List.take_left' h3]
  rw [show (d3 ++ 127 :: d127).drop 8 = 127 :: d127 from List.drop_left' h3]
  rw [apply_diff_cons]
  rw [if_neg (by simp [h127]), if_neg (by omega)]
  rw [show d127.take 8 = d127 from List.take_of_length_le (by omega)]
  rw [show d127.drop 8 = ([] : List Nat) from List.drop_eq_nil_of_le (by omega)]
  rw [apply_diff_nil]

/-- A diff payload that is a concatenation of 9-byte chunks `(block, d0..d7)`
is processed by successive 8-byte slice assignments at offset `block * 8`,
over exactly the prefix of chunks before the first block index ≥ 128. -/
theorem apply_diff_chunks (cs : List (Nat × List Nat)) (frame : List Nat)
    (hcs : ∀ c ∈ cs, c.2.length = 8) :
    apply_diff frame ((cs.map (fun c => c.1 :: c.2)).flatten)
      = (cs.takeWhile (fun c => decide (c.1 < 128))).foldl
          (fun f c => setSlice f (c.1 * 8) c.2) frame := by
  induction cs generalizing frame with
  | nil =>
      simp only [List.map_nil, List.flatten_nil, List.takeWhile_nil, List.foldl_nil]
      exact apply_diff_nil frame
  | cons c rest ih =>
      obtain ⟨b, d⟩ := c
      have hd : d.length = 8 := hcs (b, d) (List.mem_cons_self _ _)
      have hrest : ∀ c ∈ rest, c.2.length = 8 :=
        fun c hc => hcs c (List.mem_cons_of_mem _ hc)
      simp only [List.map_cons, List.flatten_cons, List.cons_append]
      rw [apply_diff_cons]
      rw [if_neg (by simp only [List.length_cons, List.length_append, hd]; omega)]
      by_cases hb : 128 ≤ b
      · have htw : List.takeWhile (fun c : Nat × List Nat => decide (c.1 < 128))
            ((b, d) :: rest) = [] := by
          simp only [List.takeWhile_cons, decide_eq_true_eq]
          rw [if_neg (show ¬ b < 128 by omega)]
        rw [if_pos hb, htw, List.foldl_nil]
      · have htw : List.takeWhile (fun c : Nat × List Nat => decide (c.1 < 128))
            ((b, d) :: rest)
            = (b, d) :: List.takeWhile (fun c : Nat × List Nat => decide (c.1 < 128)) rest := by
          simp only [List.takeWhile_cons, decide_eq_true_eq]
          rw [if_pos (show b < 128 by omega)]
        rw [if_neg hb]
        rw [List.take_left' hd, List.drop_left' hd]
        rw [htw, List.foldl_cons]
        exact ih (setSlice frame (b * 8) d) hrest

/-- A byte outside every applied chunk's 8-byte window is unchanged by
`apply_diff` on a chunked payload. -/
theorem apply_diff_chunks_untouched (cs : List (Nat × List Nat)) (frame : List Nat)
    (hf : frame.length = 1024) (hcs : ∀ c ∈ cs, c.2.length = 8) (j : Nat) (hj : j < 1024)
    (hunc : ∀ c ∈ cs.takeWhile (fun c => decide (c.1 < 128)),
        j < c.1 * 8 ∨ c.1 * 8 + 8 ≤ j) :
    byteAt (apply_diff frame ((cs.map (fun c => c.1 :: c.2)).flatten)) j
      = byteAt frame j := by
  induction cs generalizing frame with
  | nil =>
      simp only [List.map_nil, List.flatten_nil]
      rw [apply_diff_nil]
  | cons c rest ih =>
      obtain ⟨b, d⟩ := c
      have hd : d.length = 8 := hcs (b, d) (List.mem_cons_self _ _)
      have hrest : ∀ c ∈ rest, c.2.length = 8 :=
        fun c hc => hcs c (List.mem_cons_of_mem _ hc)
      simp only [List.map_cons, List.flatten_cons, List.cons_append]
      rw [apply_diff_cons]
      rw [if_neg (by simp only [List.length_cons, List.length_append, hd]; omega)]
      by_cases hb : 128 ≤ b
      · rw [if_pos hb]
      · have htw : List.takeWhile (fun c : Nat × List Nat => decide (c.1 < 128))
            ((b, d) :: rest)
            = (b, d) :: List.takeWhile (fun c : Nat × List Nat => decide (c.1 < 128)) rest := by
          simp only [List.takeWhile_cons, decide_eq_true_eq]
          rw [if_pos (show b < 128 by omega)]
        rw [if_neg hb]
        rw [List.take_left' hd, List.drop_left' hd]
        rw [htw] at hunc
        have hcov : j < b * 8 ∨ b * 8 + 8 ≤ j := hunc (b, d) (List.mem_cons_self _ _)
        have huncrest : ∀ c ∈ rest.takeWhile (fun c => decide (c.1 < 128)),
            j < c.1 * 8 ∨ c.1 * 8 + 8 ≤ j :=
          fun c hc => hunc c (List.mem_cons_of_mem _ hc)
        have hoff : b * 8 + d.length ≤ frame.length := by
          rw [hd, hf]
          omega
        have hf2 : (setSlice frame (b * 8) d).length = 1024 := by
          rw [setSlice_length _ _ _ hoff]
          exact hf
        rw [ih (setSlice frame (b * 8) d) hf2 hrest huncrest]
        rw [byteAt_setSlice _ _ _ _ hoff]
        rw [if_neg (by rw [hd]; omega)]

/-- C4: for every diff payload made of 9-byte chunks `(block, d0..d7)` (covering
all payload lengths that are a multiple of 9): the decoder applies each chunk
with block < 128 in order as an 8-byte slice assignment at offset `block * 8`
and stops without error at the first chunk whose block is ≥ 128, wherever it
occurs, leaving the remaining chunks unused; the 1024-byte frame length is
preserved; every byte not covered by an applied chunk is unchanged; in
particular the payload with blocks 3 and 127 rewrites exactly bytes [24,32)
and [1016,1024), and a payload whose leading block is ≥ 128 leaves the frame
untouched. -/
theorem C4_diff_chunks (frame : List Nat) (hf : frame.length = 1024)
    (cs : List (Nat × List Nat)) (hcs : ∀ c ∈ cs, c.2.length = 8) :
    apply_diff frame ((cs.map (fun c => c.1 :: c.2)).flatten)
        = (cs.takeWhile (fun c => decide (c.1 < 128))).foldl
            (fun f c => setSlice f (c.1 * 8) c.2) frame
    ∧ (apply_diff frame ((cs.map (fun c => c.1 :: c.2)).flatten)).length = 1024
    ∧ (∀ j, j < 1024 →
        (∀ c ∈ cs.takeWhile (fun c => decide (c.1 < 128)),
            j < c.1 * 8 ∨ c.1 * 8 + 8 ≤ j) →
        byteAt (apply_diff frame ((cs.map (fun c => c.1 :: c.2)).flatten)) j
          = byteAt frame j)
    ∧ (∀ d3 d127 : List Nat, d3.length = 8 → d127.length = 8 →
        apply_diff frame (3 :: (d3 ++ 127 :: d127))
            = setSlice (setSlice frame 24 d3) 1016 d127
        ∧ ∀ j, j < 1024 →
            byteAt (apply_diff frame (3 :: (d3 ++ 127 :: d127))) j
              = if 24 ≤ j ∧ j < 32 then byteAt d3 (j - 24)
                else if 1016 ≤ j ∧ j < 1024 then byteAt d127 (j - 1016)
                else byteAt frame j)
    ∧ (∀ (f : List Nat) (b : Nat) (rest : List Nat), 128 ≤ b →
        apply_diff f (b :: rest) = f) := by
  refine ⟨apply_diff_chunks cs frame hcs, apply_diff_length _ _ hf,
    fun j hj hunc => apply_diff_chunks_untouched cs frame hf hcs j hj hunc, ?_,
    fun f b rest hb => apply_diff_stop f b rest hb⟩
  intro d3 d127 h3 h127
  have heq := apply_diff_two_blocks frame d3 d127 h3 h127
  refine ⟨heq, ?_⟩
  intro j hj
  rw [heq]
  have hlen24 : (setSlice frame 24 d3).length = 1024 := by
    rw [setSlice_length _ _ _ (by rw [h3, hf]; omega)]
    exact hf
  rw [byteAt_setSlice _ _ _ _ (by rw [h127, hlen24])]
  rw [byteAt_setSlice _ _ _ _ (by rw [h3, hf]; omega)]
  rw [h127, h3]
  by_cases hj1 : 24 ≤ j ∧ j < 32
  · rw [if_neg (show ¬ (1016 ≤ j ∧ j < 1016 + 8) by omega),
      if_pos (show 24 ≤ j ∧ j < 24 + 8 by omega), if_pos hj1]
  · by_cases hj2 : 1016 ≤ j ∧ j < 1024
    · rw [if_pos (show 1016 ≤ j ∧ j < 1016 + 8 by omega), if_neg hj1, if_pos hj2]
    · rw [if_neg (show ¬ (1016 ≤ j ∧ j < 1016 + 8) by omega),
        if_neg (show ¬ (24 ≤ j ∧ j < 24 + 8) by omega), if_neg hj1, if_neg hj2]

/-- A sample chunk list for C4: an in-range chunk, then a chunk with an
out-of-range block mid-payload, then a further (unused) in-range chunk. -/
def c4Chunks : List (Nat × List Nat) :=
  [(3, List.replicate 8 1), (200, List.replicate 8 9), (127, List.replicate 8 2)]

/-- Witness for C4 at a concrete 1024-byte frame and a chunked payload whose
second chunk has an out-of-range block. -/
theorem C4_diff_chunks_witness :
    (List.replicate 1024 0).length = 1024
    ∧ (∀ c ∈ c4Chunks, c.2.length = 8)
    ∧ (apply_diff (List.replicate 1024 0) ((c4Chunks.map (fun c => c.1 :: c.2)).flatten)
          = (c4Chunks.takeWhile (fun c => decide (c.1 < 128))).foldl
              (fun f c => setSlice f (c.1 * 8) c.2) (List.replicate 1024 0)
        ∧ (apply_diff (List.replicate 1024 0)
              ((c4Chunks.map (fun c => c.1 :: c.2)).flatten)).length = 1024
        ∧ (∀ j, j < 1024 →
            (∀ c ∈ c4Chunks.takeWhile (fun c => decide (c.1 < 128)),
                j < c.1 * 8 ∨ c.1 * 8 + 8 ≤ j) →
            byteAt (apply_diff (List.replicate 1024 0)
                ((c4Chunks.map (fun c => c.1 :: c.2)).flatten)) j
              = byteAt (List.replicate 1024 0) j)
        ∧ (∀ d3 d127 : List Nat, d3.length = 8 → d127.length = 8 →
            apply_diff (List.replicate 1024 0) (3 :: (d3 ++ 127 :: d127))
                = setSlice (setSlice (List.replicate 1024 0) 24 d3) 1016 d127
            ∧ ∀ j, j < 1024 →
                byteAt (apply_diff (List.replicate 1024 0) (3 :: (d3 ++ 127 :: d127))) j
                  = if 24 ≤ j ∧ j < 32 then byteAt d3 (j - 24)
                    else if 1016 ≤ j ∧ j < 1024 then byteAt d127 (j - 1016)
                    else byteAt (List.replicate 1024 0) j)
        ∧ (∀ (f : List Nat) (b : Nat) (rest : List Nat), 128 ≤ b →
            apply_diff f (b :: rest) = f)) :=
  ⟨by rw [List.length_replicate], by decide,
   C4_diff_chunks (List.replicate 1024 0) (by rw [List.length_replicate]) c4Chunks
     (by decide)⟩

/-! ### Lemmas about `consume_screen` -/

theorem consume_screen_nil (f : List Nat) : consume_screen [] f = ([], f, []) := by
  rw [consume_screen.eq_def]
  rw [dif_pos (by simp)]

/-- A complete full-frame transmission is consumed in one step: buffer empties,
the frame buffer becomes the 1024 payload bytes, one `fullFrame` event. -/
theorem consume_full (bitmap : List Nat) (hbm : bitmap.length = 1024) (f : List Nat) :
    consume_screen (0xAA :: 0x55 :: 1 :: 4 :: 0 :: bitmap) f
      = ([], bitmap, [ScreenEvent.fullFrame]) := by
  have hfp : findPair 0xAA 0x55 (0xAA :: 0x55 :: 1 :: 4 :: 0 :: bitmap) = some 0 := by
    simp [findPair]
  have hb3 : byteAt (0xAA :: 0x55 :: 1 :: 4 :: 0 :: bitmap) 3 = 4 := by simp [byteAt]
  have hb4 : byteAt (0xAA :: 0x55 :: 1 :: 4 :: 0 :: bitmap) 4 = 0 := by simp [byteAt]
  have hb2 : byteAt (0xAA :: 0x55 :: 1 :: 4 :: 0 :: bitmap) 2 = 1 := by simp [byteAt]
  have hsz : ((4 : Nat) <<< 8) ||| 0 = 1024 := by decide
  have hlen : (0xAA :: 0x55 :: 1 :: 4 :: 0 :: bitmap).length = 1029 := by
    simp [hbm]
  rw [consume_screen.eq_def]
  rw [dif_neg (by rw [hlen]; omega)]
  simp only [hfp, List.drop_zero, hb2, hb3, hb4, hsz]
  rw [if_neg (by rw [hlen]; omega)]
  rw [dif_neg (by rw [hlen]; omega)]
  rw [if_pos (by simp)]
  have hpay : ((0xAA :: 0x55 :: 1 :: 4 :: 0 :: bitmap).drop 5).take 1024 = bitmap := by
    show bitmap.take 1024 = bitmap
    exact List.take_of_length_le (by omega)
  have hrest : (0xAA :: 0x55 :: 1 :: 4 :: 0 :: bitmap).drop (5 + 1024) = [] :=
    List.drop_eq_nil_of_le (by rw [hlen])
  rw [hpay, hrest, consume_screen_nil]

/-- A strict prefix of a full-frame transmission is left untouched: the decoder
waits for more data without consuming bytes or emitting events. -/
theorem consume_incomplete (bitmap : List Nat) (hbm : bitmap.length = 1024)
    (P t f : List Nat) (hPS : P ++ t = 0xAA :: 0x55 :: 1 :: 4 :: 0 :: bitmap)
    (hlt : P.length < 1029) :
    consume_screen P f = (P, f, []) := by
  by_cases h5 : P.length < 5
  · rw [consume_screen.eq_def, dif_pos h5]
  · rcases P with _ | ⟨a, _ | ⟨b, _ | ⟨c, _ | ⟨d, _ | ⟨e, P5⟩⟩⟩⟩⟩
    · simp at h5
    · simp at h5
    · simp at h5
    · simp at h5
    · simp at h5
    · simp only [List.cons_append, List.cons.injEq] at hPS
      obtain ⟨rfl, rfl, rfl, rfl, rfl, hP5⟩ := hPS
      rw [consume_screen.eq_def, dif_neg h5]
      have hfp : findPair 0xAA 0x55 (0xAA :: 0x55 :: 1 :: 4 :: 0 :: P5) = some 0 := by
        simp [findPair]
      have hb3 : byteAt (0xAA :: 0x55 :: 1 :: 4 :: 0 :: P5) 3 = 4 := by simp [byteAt]
      have hb4 : byteAt (0xAA :: 0x55 :: 1 :: 4 :: 0 :: P5) 4 = 0 := by simp [byteAt]
      have hsz : ((4 : Nat) <<< 8) ||| 0 = 1024 := by decide
      simp only [hfp, List.drop_zero, hb3, hb4, hsz]
      rw [if_neg h5]
      rw [dif_pos (by
        simp only [List.length_cons]
        simp only [List.length_cons] at hlt
        omega)]

/-- A complete screenshot-typed frame whose declared size is not 1024 is
consumed but ignored: the frame buffer is unchanged. -/
theorem consume_ignored (s1 s0 : Nat) (payload f : List Nat)
    (hsz : (s1 <<< 8) ||| s0 ≠ 1024)
    (hplen : payload.length = (s1 <<< 8) ||| s0) :
    consume_screen (0xAA :: 0x55 :: 1 :: s1 :: s0 :: payload) f
      = ([], f, [ScreenEvent.ignored 1 ((s1 <<< 8) ||| s0)]) := by
  have hfp : findPair 0xAA 0x55 (0xAA :: 0x55 :: 1 :: s1 :: s0 :: payload) = some 0 := by
    simp [findPair]
  have hb3 : byteAt (0xAA :: 0x55 :: 1 :: s1 :: s0 :: payload) 3 = s1 := by simp [byteAt]
  have hb4 : byteAt (0xAA :: 0x55 :: 1 :: s1 :: s0 :: payload) 4 = s0 := by simp [byteAt]
  have hb2 : byteAt (0xAA :: 0x55 :: 1 :: s1 :: s0 :: payload) 2 = 1 := by simp [byteAt]
  have hlen : (0xAA :: 0x55 :: 1 :: s1 :: s0 :: payload).length
      = 5 + ((s1 <<< 8) ||| s0) := by
    simp [hplen]
    omega
  rw [consume_screen.eq_def]
  rw [dif_neg (by rw [hlen]; omega)]
  simp only [hfp, List.drop_zero, hb2, hb3, hb4]
  rw [if_neg (by rw [hlen]; omega)]
  rw [dif_neg (by rw [hlen]; omega)]
  rw [if_neg (by simp [hsz])]
  rw [if_neg (by simp)]
  have hrest : (0xAA :: 0x55 :: 1 :: s1 :: s0 :: payload).drop (5 + ((s1 <<< 8) ||| s0))
      = [] :=
    List.drop_eq_nil_of_le (by rw [hlen])
  rw [hrest, consume_screen_nil]

/-- The display buffer length invariant for the streaming decoder. -/
theorem consume_screen_frame_length (buf frame : List Nat) (hf : frame.length = 1024) :
    ((consume_screen buf frame).2.1).length = 1024 := by
  have H : ∀ n buf frame, buf.length ≤ n → frame.length = 1024 →
      ((consume_screen buf frame).2.1).length = 1024 := by
    intro n
    induction n with
    | zero =>
        intro buf frame hle hf
        rw [consume_screen.eq_def, dif_pos (by omega)]
        exact hf
    | succ n ih =>
        intro buf frame hle hf
        rw [consume_screen.eq_def]
        by_cases h5 : buf.length < 5
        · rw [dif_pos h5]; exact hf
        · rw [dif_neg h5]
          cases hfp : findPair 0xAA 0x55 buf with
          | none =>
              exact hf
          | some hdr =>
              dsimp only
              by_cases h5b : (buf.drop hdr).length < 5
              · rw [if_pos h5b]; exact hf
              · rw [if_neg h5b]
                by_cases htot : (buf.drop hdr).length
                    < 5 + ((byteAt (buf.drop hdr) 3 <<< 8) ||| byteAt (buf.drop hdr) 4)
                · rw [dif_pos htot]; exact hf
                · rw [dif_neg htot]
                  by_cases hc1 : byteAt (buf.drop hdr) 2 = 1
                      ∧ (byteAt (buf.drop hdr) 3 <<< 8) ||| byteAt (buf.drop hdr) 4 = 1024
                  · rw [if_pos hc1]
                    dsimp only
                    apply ih
                    · simp only [List.length_drop]
                      simp only [List.length_drop] at htot h5b
                      omega
                    · have h2 := hc1.2
                      simp only [List.length_take, List.length_drop]
                      simp only [List.length_drop] at htot
                      omega
                  · rw [if_neg hc1]
                    by_cases hc2 : byteAt (buf.drop hdr) 2 = 2
                        ∧ ((byteAt (buf.drop hdr) 3 <<< 8) ||| byteAt (buf.drop hdr) 4) % 9
                            = 0
                    · rw [if_pos hc2]
                      dsimp only
                      apply ih
                      · simp only [List.length_drop]
                        simp only [List.length_drop] at htot h5b
                        omega
                      · exact apply_diff_length _ _ hf
                    · rw [if_neg hc2]
                      dsimp only
                      apply ih
                      · simp only [List.length_drop]
                        simp only [List.length_drop] at htot h5b
                        omega
                      · exact hf
  exact H buf.length buf frame le_rfl hf

/-- C9: the display buffer length is invariant at 1024 — preserved by every
`_apply_diff` call and every `_consume_screen_buffer` call; an out-of-range
diff block (≥ 128) writes nothing; and a screenshot frame whose declared size
is not 1024 is consumed without replacing the buffer. -/
theorem C9_display_buffer_invariant :
    (∀ (payload frame : List Nat), frame.length = 1024 →
        (apply_diff frame payload).length = 1024)
    ∧ (∀ (buf frame : List Nat), frame.length = 1024 →
        ((consume_screen buf frame).2.1).length = 1024)
    ∧ (∀ (frame : List Nat) (b : Nat) (rest : List Nat), 128 ≤ b →
        apply_diff frame (b :: rest) = frame)
    ∧ (∀ (s1 s0 : Nat) (payload f : List Nat), (s1 <<< 8) ||| s0 ≠ 1024 →
        payload.length = (s1 <<< 8) ||| s0 →
        consume_screen (0xAA :: 0x55 :: 1 :: s1 :: s0 :: payload) f
          = ([], f, [ScreenEvent.ignored 1 ((s1 <<< 8) ||| s0)])) :=
  ⟨fun payload frame hf => apply_diff_length payload frame hf,
   fun buf frame hf => consume_screen_frame_length buf frame hf,
   fun frame b rest hb => apply_diff_stop frame b rest hb,
   fun s1 s0 payload f hsz hplen => consume_ignored s1 s0 payload f hsz hplen⟩

/-- Witness for C9 at concrete buffers. -/
theorem C9_display_buffer_invariant_witness :
    (apply_diff (List.replicate 1024 3) [1, 2, 3]).length = 1024
    ∧ ((consume_screen [0xAA] (List.replicate 1024 3)).2.1).length = 1024
    ∧ apply_diff (List.replicate 1024 3) (130 :: List.replicate 8 0)
        = List.replicate 1024 3
    ∧ consume_screen (0xAA :: 0x55 :: 1 :: 0 :: 2 :: [7, 7]) (List.replicate 1024 3)
        = ([], List.replicate 1024 3, [ScreenEvent.ignored 1 ((0 <<< 8) ||| 2)]) :=
  ⟨C9_display_buffer_invariant.1 [1, 2, 3] (List.replicate 1024 3)
      (by rw [List.length_replicate]),
   C9_display_buffer_invariant.2.1 [0xAA] (List.replicate 1024 3)
      (by rw [List.length_replicate]),
   C9_display_buffer_invariant.2.2.1 (List.replicate 1024 3) 130 (List.replicate 8 0)
      (by omega),
   C9_display_buffer_invariant.2.2.2 0 2 [7, 7] (List.replicate 1024 3)
      (by decide) (by decide)⟩

/-! ### Claim C3: arbitrary chunking of a full frame -/

theorem runChunks_all_empty (cs : List (List Nat)) (f : List Nat)
    (h : cs.flatten = []) :
    runChunks [] f cs = ([], f, []) := by
  induction cs with
  | nil => rfl
  | cons c cs ih =>
      simp only [List.flatten_cons] at h
      obtain ⟨hc, hcs⟩ := List.append_eq_nil.mp h
      subst hc
      simp only [runChunks, List.nil_append, consume_screen_nil]
      rw [ih hcs]

theorem runChunks_assembles (bitmap : List Nat) (hbm : bitmap.length = 1024) :
    ∀ (chunks : List (List Nat)) (buf f : List Nat),
      buf ++ chunks.flatten = 0xAA :: 0x55 :: 1 :: 4 :: 0 :: bitmap →
      buf.length < 1029 →
      runChunks buf f chunks = ([], bitmap, [ScreenEvent.fullFrame]) := by
  intro chunks
  induction chunks with
  | nil =>
      intro buf f hS hlt
      exfalso
      simp only [List.flatten_nil, List.append_nil] at hS
      rw [hS] at hlt
      simp [hbm] at hlt
  | cons c cs ih =>
      intro buf f hS hlt
      simp only [List.flatten_cons] at hS
      have hS2 : (buf ++ c) ++ cs.flatten = 0xAA :: 0x55 :: 1 :: 4 :: 0 :: bitmap := by
        rw [List.append_assoc]
        exact hS
      by_cases hfull : (buf ++ c).length < 1029
      · simp only [runChunks]
        rw [consume_incomplete bitmap hbm (buf ++ c) cs.flatten f hS2 hfull]
        dsimp only
        rw [ih (buf ++ c) f hS2 hfull]
        rfl
      · have hlenS : (buf ++ c).length + cs.flatten.length = 1029 := by
          have hl := congrArg List.length hS2
          simp only [List.length_append, List.length_cons, hbm] at hl
          simp only [List.length_append]
          omega
        have hfl : cs.flatten = [] := by
          have hz : cs.flatten.length = 0 := by omega
          exact List.eq_nil_of_length_eq_zero hz
        have hbc : buf ++ c = 0xAA :: 0x55 :: 1 :: 4 :: 0 :: bitmap := by
          rw [hfl, List.append_nil] at hS2
          exact hS2
        simp only [runChunks]
        rw [hbc, consume_full bitmap hbm f]
        dsimp only
        rw [runChunks_all_empty cs bitmap hfl]
        rfl

/-- C3: for every way of splitting the 1029-byte full-frame transmission
(`AA 55`, type 1, big-endian size 1024, 1024 payload bytes) into consecutive
chunks fed in order to the decoder starting from an empty receive buffer, the
decoder emits exactly one `fullFrame` event and the display buffer afterwards
is exactly the 1024 payload bytes. -/
theorem C3_full_frame_any_split (bitmap f0 : List Nat) (chunks : List (List Nat))
    (hbm : bitmap.length = 1024)
    (hsplit : chunks.flatten = [0xAA, 0x55, 0x01, 0x04, 0x00] ++ bitmap) :
    runChunks [] f0 chunks = ([], bitmap, [ScreenEvent.fullFrame]) := by
  apply runChunks_assembles bitmap hbm chunks [] f0
  · simpa using hsplit
  · simp

/-- Witness for C3: the frame split into a 1-byte chunk and the remainder. -/
theorem C3_full_frame_any_split_witness :
    runChunks [] (List.replicate 1024 0)
        [[0xAA], [0x55, 0x01, 0x04, 0x00] ++ List.replicate 1024 7]
      = ([], List.replicate 1024 7, [ScreenEvent.fullFrame]) :=
  C3_full_frame_any_split (List.replicate 1024 7) (List.replicate 1024 0)
    [[0xAA], [0x55, 0x01, 0x04, 0x00] ++ List.replicate 1024 7]
    (by rw [List.length_replicate])
    (by simp only [List.flatten_cons, List.flatten_nil, List.append_nil,
          List.cons_append, List.nil_append])

/-! ### Session/button state machine (`K5Receiver` button path) -/

/-- A queued button intent `(key_code, action, key_name, retries)` as stored
in `_button_queue` / `_inflight_event`. -/
abbrev BtnEvent := Nat × Nat × String × Nat

/-- The mutable state of the button/session machinery of `K5Receiver`. -/
structure BtnState where
  session_ts : Option Nat
  session_pending : Bool
  session_deadline_ms : Nat
  last_session_attempt_ms : Nat
  button_queue : List BtnEvent
  next_seq : Nat
  inflight_seq : Option Nat
  inflight_event : Option BtnEvent
  inflight_deadline_ms : Nat
deriving DecidableEq

/-- The initial (idle) state set up in `K5Receiver.__init__`. -/
def idleBtnState : BtnState :=
  { session_ts := none
    session_pending := false
    session_deadline_ms := 0
    last_session_attempt_ms := 0
    button_queue := []
    next_seq := 1
    inflight_seq := none
    inflight_event := none
    inflight_deadline_ms := 0 }

/-- `KEY_CODES` from the source. -/
def KEY_CODES : List (String × Nat) :=
  [("0", 0), ("1", 1), ("2", 2), ("3", 3), ("4", 4), ("5", 5), ("6", 6), ("7", 7),
   ("8", 8), ("9", 9), ("MENU", 10), ("UP", 11), ("DOWN", 12), ("EXIT", 13),
   ("STAR", 14), ("F", 15), ("SIDE2", 17), ("SIDE1", 18)]

/-- `queue_button_tap`: a known key appends a press intent then a release
intent (retries 0); an unknown key leaves the queue unchanged. -/
def queue_button_tap (key_name : String) (st : BtnState) : BtnState :=
  match KEY_CODES.lookup key_name with
  | none => st
  | some key_code =>
      { st with button_queue := st.button_queue
          ++ [(key_code, 0, key_name, 0), (key_code, 1, key_name, 0)] }

/-- `_requeue_event`: increment the retry counter; above the limit (4) the
event is dropped (reported, second component `true`), otherwise it is
reinserted at the front of the queue. -/
def requeue_event (e : BtnEvent) (q : List BtnEvent) : List BtnEvent × Bool :=
  match e with
  | (key_code, action, key_name, retries) =>
      if retries + 1 > 4 then (q, true)
      else ((key_code, action, key_name, retries + 1) :: q, false)

/-- `_is_session_fresh`.  (Python computes `now_ms - ts < 5000` with signed
arithmetic; for `ts > now` the signed difference is negative and still below
5000, matching truncated `Nat` subtraction, which yields 0 < 5000.) -/
def is_session_fresh (now : Nat) (st : BtnState) : Bool :=
  match st.session_ts with
  | none => false
  | some ts => decide (now - ts < 5000)

/-- `_start_session`: mark pending, remember the attempt time, set the 500 ms
deadline, store the 32-bit-truncated timestamp, and send `SessionInit`. -/
def start_session (now : Nat) (st : BtnState) : BtnState × List (Nat × List Nat) :=
  let ts := now % 4294967296
  ({ st with session_pending := true
             last_session_attempt_ms := now
             session_deadline_ms := now + 500
             session_ts := some ts },
   [(0x0514, word_le ts)])

/-- `_service_button_tx` at tick time `now`: session/ack timeout handling, then
either wait, start a session, or send the queue head as a `ButtonEvent`
(message-level output `(msg_type, payload)`; the byte framing is `send_cmd`). -/
def service_button_tx (now : Nat) (st : BtnState) : BtnState × List (Nat × List Nat) :=
  let st1 := if st.session_pending = true ∧ st.session_deadline_ms ≤ now then
      { st with session_pending := false, session_ts := none }
    else st
  let st2 := if st1.inflight_seq ≠ none ∧ st1.inflight_deadline_ms ≤ now then
      { st1 with
        button_queue :=
          match st1.inflight_event with
          | some e => (requeue_event e st1.button_queue).1
          | none => st1.button_queue
        inflight_seq := none
        inflight_event := none }
    else st1
  if st2.inflight_seq ≠ none ∨ st2.button_queue = [] then (st2, [])
  else if st2.session_pending = true then (st2, [])
  else if is_session_fresh now st2 = false then
    if now - st2.last_session_attempt_ms < 300 then (st2, [])
    else start_session now st2
  else
    match st2.button_queue with
    | [] => (st2, [])
    | (key_code, action, key_name, retries) :: rest =>
        let seq := st2.next_seq % 65536
        let payload := word_le (st2.session_ts.getD 0) ++ hw_le seq
          ++ [key_code, action] ++ hw_le 0
        ({ st2 with
            button_queue := rest
            next_seq := (st2.next_seq + 1) % 65536
            inflight_seq := some seq
            inflight_event := some (key_code, action, key_name, retries)
            inflight_deadline_ms := now + 700 },
         [(0x0610, payload)])

/-- The dispatch part of `_consume_cmd_buffer` for one received message:
`SessionInfo` clears the pending flag; a `ButtonAck` matching the in-flight
sequence clears the in-flight slot and acts on the status byte
(0 accepted, 1 busy → requeue, 3 stale → requeue and invalidate session,
anything else → drop). -/
def handle_msg (msg_type : Nat) (payload : List Nat) (st : BtnState) : BtnState :=
  if msg_type = 0x0515 then { st with session_pending := false }
  else if msg_type = 0x0611 ∧ 4 ≤ payload.length then
    let seq := byteAt payload 0 ||| (byteAt payload 1 <<< 8)
    let status := byteAt payload 2
    match st.inflight_seq with
    | none => st
    | some ifl =>
        if seq ≠ ifl then st
        else
          let event := st.inflight_event
          let st2 := { st with inflight_seq := none, inflight_event := none }
          if status = 0 then st2
          else if status = 1 ∨ status = 3 then
            let st3 :=
              match event with
              | some e => { st2 with button_queue := (requeue_event e st2.button_queue).1 }
              | none => st2
            if status = 3 then
              { st3 with session_ts := none, session_pending := false }
            else st3
          else st2
  else st

/-- One driver input: a `_service_button_tx` timer tick at wall time `now`, or
the arrival of one parsed command message. -/
inductive BtnInput where
  | tick (now : Nat)
  | recv (msg_type : Nat) (payload : List Nat)

def btn_step (st : BtnState) : BtnInput → BtnState × List (Nat × List Nat)
  | BtnInput.tick now => service_button_tx now st
  | BtnInput.recv t p => (handle_msg t p st, [])

/-- Run a sequence of inputs, collecting all sent messages in order. -/
def btn_run (st : BtnState) : List BtnInput → BtnState × List (Nat × List Nat)
  | [] => (st, [])
  | i :: rest =>
      let r := btn_step st i
      let r2 := btn_run r.1 rest
      (r2.1, r.2 ++ r2.2)

/-! ### Claims C7, C8, C10 -/

/-- An in-flight state whose event has already been retried 4 times. -/
def c7ExampleState : BtnState :=
  { session_ts := some 42
    session_pending := false
    session_deadline_ms := 0
    last_session_attempt_ms := 0
    button_queue := []
    next_seq := 6
    inflight_seq := some 5
    inflight_event := some (1, 0, "1", 4)
    inflight_deadline_ms := 0 }

/-- C7 counterexample: a matching busy (status 1) ack for an in-flight event
whose retry counter is already 4 does NOT reinsert the event at the front of
the queue — the queue stays empty (the event is dropped), refuting the claim
as stated. -/
theorem C7_counterexample :
    (handle_msg 0x0611 [5, 0, 1, 0] c7ExampleState).button_queue = []
    ∧ (handle_msg 0x0611 [5, 0, 1, 0] c7ExampleState).inflight_seq = none := by
  decide

/-- C7 (amended): provided the in-flight event's retry counter is below the
limit (retries < 4), a matching `ButtonAck` with status busy (1) clears the
in-flight slot and reinserts the event exactly once at the front with the
session state untouched, and a matching ack with status stale (3) does the
same and additionally clears the session timestamp and pending flag. -/
theorem C7_busy_stale (st : BtnState) (k a : Nat) (nm : String) (r s : Nat)
    (p : List Nat) (hr : r < 4) (hseq : st.inflight_seq = some s)
    (hev : st.inflight_event = some (k, a, nm, r)) (hlen : 4 ≤ p.length)
    (hpseq : byteAt p 0 ||| (byteAt p 1 <<< 8) = s) :
    (byteAt p 2 = 1 →
      handle_msg 0x0611 p st
        = { st with inflight_seq := none, inflight_event := none,
                    button_queue := (k, a, nm, r + 1) :: st.button_queue })
    ∧ (byteAt p 2 = 3 →
      handle_msg 0x0611 p st
        = { st with inflight_seq := none, inflight_event := none,
                    button_queue := (k, a, nm, r + 1) :: st.button_queue,
                    session_ts := none, session_pending := false }) := by
  have hnr : ¬ (r + 1 > 4) := by omega
  constructor
  · intro hst
    simp [handle_msg, requeue_event, hseq, hev, hpseq, hst, hlen, hnr]
  · intro hst
    simp [handle_msg, requeue_event, hseq, hev, hpseq, hst, hlen, hnr]

/-- A fresh in-flight state (retry counter 0) for the C7 witness. -/
def c7FreshState : BtnState :=
  { session_ts := some 7
    session_pending := false
    session_deadline_ms := 0
    last_session_attempt_ms := 0
    button_queue := []
    next_seq := 2
    inflight_seq := some 1
    inflight_event := some (1, 0, "1", 0)
    inflight_deadline_ms := 0 }

/-- Witness for C7 (amended) at a concrete state and concrete acks. -/
theorem C7_busy_stale_witness :
    handle_msg 0x0611 [1, 0, 1, 0] c7FreshState
      = { c7FreshState with inflight_seq := none, inflight_event := none,
                            button_queue := (1, 0, "1", 1) :: c7FreshState.button_queue }
    ∧ handle_msg 0x0611 [1, 0, 3, 0] c7FreshState
      = { c7FreshState with inflight_seq := none, inflight_event := none,
                            button_queue := (1, 0, "1", 1) :: c7FreshState.button_queue,
                            session_ts := none, session_pending := false } :=
  ⟨(C7_busy_stale c7FreshState 1 0 "1" 0 1 [1, 0, 1, 0] (by omega) rfl rfl
      (by decide) (by decide)).1 (by decide),
   (C7_busy_stale c7FreshState 1 0 "1" 0 1 [1, 0, 3, 0] (by omega) rfl rfl
      (by decide) (by decide)).2 (by decide)⟩

/-- C8: every requeue increments the retry counter; if it exceeds the limit
(4) the event is dropped with a report (flag `true`) and not reinserted,
otherwise it goes to the front of the queue; and with an empty queue and no
in-flight event the tick sends nothing, so a dropped event is never resent. -/
theorem C8_retry_limit :
    (∀ (k a : Nat) (nm : String) (r : Nat) (q : List BtnEvent), 4 ≤ r →
        requeue_event (k, a, nm, r) q = (q, true))
    ∧ (∀ (k a : Nat) (nm : String) (r : Nat) (q : List BtnEvent), r < 4 →
        requeue_event (k, a, nm, r) q = ((k, a, nm, r + 1) :: q, false))
    ∧ (∀ (now : Nat) (st : BtnState), st.button_queue = [] → st.inflight_seq = none →
        (service_button_tx now st).2 = []) := by
  refine ⟨?_, ?_, ?_⟩
  · intro k a nm r q hge
    simp [requeue_event, show r + 1 > 4 by omega]
  · intro k a nm r q hlt
    simp [requeue_event, show ¬ (r + 1 > 4) by omega]
  · intro now st hq hi
    simp only [service_button_tx]
    split_ifs with h1 h2 h3 <;> simp_all

/-- Witness for C8 at concrete events and the idle state. -/
theorem C8_retry_limit_witness :
    requeue_event (1, 0, "1", 4) [] = ([], true)
    ∧ requeue_event (1, 0, "1", 0) [] = ([(1, 0, "1", 1)], false)
    ∧ (service_button_tx 0 idleBtnState).2 = [] :=
  ⟨C8_retry_limit.1 1 0 "1" 4 [] (by omega),
   C8_retry_limit.2.1 1 0 "1" 0 [] (by omega),
   C8_retry_limit.2.2 0 idleBtnState rfl rfl⟩

/-- C10: `_start_session` stores the timestamp truncated to 32 bits while
`_is_session_fresh` subtracts it from the untruncated clock, so for
`now_ms ≥ 2^32` a session started at `now_ms` is never fresh at any later
time, and a tick at such a time never sends a `ButtonEvent` (0x0610) — it can
only wait or re-issue `SessionInit`. -/
theorem C10_session_truncation (now_ms : Nat) (h32 : 4294967296 ≤ now_ms) :
    (∀ (st : BtnState) (now2 : Nat), now_ms ≤ now2 →
        is_session_fresh now2 ((start_session now_ms st).1) = false)
    ∧ (∀ (st : BtnState) (now2 : Nat), now_ms ≤ now2 →
        st.session_ts = some (now_ms % 4294967296) →
        ∀ pl, (0x0610, pl) ∉ (service_button_tx now2 st).2) := by
  have key : ∀ now2, now_ms ≤ now2 → ¬ (now2 - now_ms % 4294967296 < 5000) := by
    intro now2 hle
    omega
  constructor
  · intro st now2 hle
    simp [is_session_fresh, start_session]
    omega
  · intro st now2 hle hts pl
    have k2 := key now2 hle
    simp only [service_button_tx]
    split_ifs <;> simp_all [start_session, is_session_fresh]

/-- Witness for C10 at `now_ms = now2 = 2^32` from the idle state. -/
theorem C10_session_truncation_witness :
    is_session_fresh 4294967296 ((start_session 4294967296 idleBtnState).1) = false
    ∧ (0x0610, ([] : List Nat)) ∉
        (service_button_tx 4294967296 ((start_session 4294967296 idleBtnState).1)).2 :=
  ⟨(C10_session_truncation 4294967296 (by omega)).1 idleBtnState 4294967296 (by omega),
   (C10_session_truncation 4294967296 (by omega)).2
      ((start_session 4294967296 idleBtnState).1) 4294967296 (by omega) rfl []⟩

/-! ### Claim C1: the happy path of one queued tap -/

theorem btn_run_append (st : BtnState) (l1 l2 : List BtnInput) :
    btn_run st (l1 ++ l2)
      = ((btn_run (btn_run st l1).1 l2).1,
         (btn_run st l1).2 ++ (btn_run (btn_run st l1).1 l2).2) := by
  induction l1 generalizing st with
  | nil => simp [btn_run]
  | cons i rest ih =>
      simp only [List.cons_append, btn_run, List.append_eq, ih, List.append_assoc]

theorem btn_run_noops (ts : List Nat) (st : BtnState)
    (h : ∀ t ∈ ts, btn_step st (BtnInput.tick t) = (st, [])) :
    btn_run st (ts.map BtnInput.tick) = (st, []) := by
  induction ts with
  | nil => rfl
  | cons t rest ih =>
      simp only [List.map_cons, btn_run]
      rw [h t (by simp)]
      rw [ih (fun u hu => h u (by simp [hu]))]
      rfl

theorem btn_run_cons (st : BtnState) (i : BtnInput) (rest : List BtnInput) :
    btn_run st (i :: rest)
      = ((btn_run (btn_step st i).1 rest).1,
         (btn_step st i).2 ++ (btn_run (btn_step st i).1 rest).2) := rfl

def c1S0 : BtnState :=
  { session_ts := none
    session_pending := false
    session_deadline_ms := 0
    last_session_attempt_ms := 0
    button_queue := [(1, 0, "1", 0), (1, 1, "1", 0)]
    next_seq := 1
    inflight_seq := none
    inflight_event := none
    inflight_deadline_ms := 0 }

def c1S1 (a : Nat) : BtnState :=
  { c1S0 with session_pending := true
              last_session_attempt_ms := a
              session_deadline_ms := a + 500
              session_ts := some (a % 4294967296) }

def c1S2 (a : Nat) : BtnState := { c1S1 a with session_pending := false }

def c1S3 (a b : Nat) : BtnState :=
  { c1S2 a with button_queue := [(1, 1, "1", 0)]
                next_seq := 2
                inflight_seq := some 1
                inflight_event := some (1, 0, "1", 0)
                inflight_deadline_ms := b + 700 }

def c1S4 (a b : Nat) : BtnState :=
  { c1S3 a b with inflight_seq := none, inflight_event := none }

def c1S5 (a b c : Nat) : BtnState :=
  { c1S4 a b with button_queue := []
                  next_seq := 3
                  inflight_seq := some 2
                  inflight_event := some (1, 1, "1", 0)
                  inflight_deadline_ms := c + 700 }

def c1S6 (a b c : Nat) : BtnState :=
  { c1S5 a b c with inflight_seq := none, inflight_event := none }

theorem c1_start : queue_button_tap "1" idleBtnState = c1S0 := by decide

theorem c1_tick0 (t : Nat) (ht : t < 300) : service_button_tx t c1S0 = (c1S0, []) := by
  simp [service_button_tx, c1S0, is_session_fresh, ht]

theorem c1_tick_init (a : Nat) (ha : 300 ≤ a) :
    service_button_tx a c1S0 = (c1S1 a, [(0x0514, word_le (a % 4294967296))]) := by
  simp [service_button_tx, c1S0, c1S1, is_session_fresh, start_session,
    show ¬ (a - 0 < 300) by omega, ha]

theorem c1_tick_pending (a t : Nat) (htd : t < a + 500) :
    service_button_tx t (c1S1 a) = (c1S1 a, []) := by
  simp [service_button_tx, c1S1, c1S0, is_session_fresh, show ¬ (a + 500 ≤ t) by omega]

theorem c1_recv_info (a : Nat) (p : List Nat) :
    handle_msg 0x0515 p (c1S1 a) = c1S2 a := by
  simp [handle_msg, c1S1, c1S2, c1S0]

theorem c1_tick_press (a b : Nat) (hb : b - a % 4294967296 < 5000) :
    service_button_tx b (c1S2 a)
      = (c1S3 a b,
         [(0x0610, word_le (a % 4294967296) ++ hw_le 1 ++ [1, 0] ++ hw_le 0)]) := by
  simp [service_button_tx, c1S2, c1S1, c1S0, c1S3, is_session_fresh, hb]

theorem c1_tick_inflight1 (a b t : Nat) (htd : t < b + 700) :
    service_button_tx t (c1S3 a b) = (c1S3 a b, []) := by
  simp [service_button_tx, c1S3, c1S2, c1S1, c1S0, show ¬ (b + 700 ≤ t) by omega]

theorem c1_recv_ack1 (a b : Nat) (p : List Nat) (hlen : 4 ≤ p.length)
    (hseq : byteAt p 0 ||| (byteAt p 1 <<< 8) = 1) (hst : byteAt p 2 = 0) :
    handle_msg 0x0611 p (c1S3 a b) = c1S4 a b := by
  simp [handle_msg, c1S3, c1S4, c1S2, c1S1, c1S0, hlen, hseq, hst]

theorem c1_tick_release (a b c : Nat) (hc : c - a % 4294967296 < 5000) :
    service_button_tx c (c1S4 a b)
      = (c1S5 a b c,
         [(0x0610, word_le (a % 4294967296) ++ hw_le 2 ++ [1, 1] ++ hw_le 0)]) := by
  simp [service_button_tx, c1S4, c1S3, c1S2, c1S1, c1S0, c1S5, is_session_fresh, hc]

theorem c1_tick_inflight2 (a b c t : Nat) (htd : t < c + 700) :
    service_button_tx t (c1S5 a b c) = (c1S5 a b c, []) := by
  simp [service_button_tx, c1S5, c1S4, c1S3, c1S2, c1S1, c1S0,
    show ¬ (c + 700 ≤ t) by omega]

theorem c1_recv_ack2 (a b c : Nat) (p : List Nat) (hlen : 4 ≤ p.length)
    (hseq : byteAt p 0 ||| (byteAt p 1 <<< 8) = 2) (hst : byteAt p 2 = 0) :
    handle_msg 0x0611 p (c1S5 a b c) = c1S6 a b c := by
  simp [handle_msg, c1S5, c1S6, c1S4, c1S3, c1S2, c1S1, c1S0, hlen, hseq, hst]

/-- C1: from the idle state with one queued tap for key "1", under any
schedule respecting the protocol deadlines (arbitrary no-op ticks before the
retry interval elapses, during the pending session, and during each in-flight
wait), the first effective tick sends `SessionInit` and marks the session
pending; after `SessionInfo` arrives the next tick sends
`ButtonEvent(key=1, press)`; after a matching accepted ack the next tick sends
`ButtonEvent(key=1, release)`; after the final accepted ack the queue is empty,
nothing is in flight, and exactly those three messages were sent (no event was
ever requeued). -/
theorem C1_single_tap_flow
    (ts0 ts1 ts3 ts4 : List Nat) (a b c : Nat) (infop ack1 ack2 : List Nat)
    (h0 : ∀ t ∈ ts0, t < 300)
    (ha : 300 ≤ a)
    (h1 : ∀ t ∈ ts1, t < a + 500)
    (hb : b - a % 4294967296 < 5000)
    (h3 : ∀ t ∈ ts3, t < b + 700)
    (hack1len : 4 ≤ ack1.length)
    (hack1seq : byteAt ack1 0 ||| (byteAt ack1 1 <<< 8) = 1)
    (hack1st : byteAt ack1 2 = 0)
    (hc : c - a % 4294967296 < 5000)
    (h4 : ∀ t ∈ ts4, t < c + 700)
    (hack2len : 4 ≤ ack2.length)
    (hack2seq : byteAt ack2 0 ||| (byteAt ack2 1 <<< 8) = 2)
    (hack2st : byteAt ack2 2 = 0) :
    btn_run (queue_button_tap "1" idleBtnState)
        (ts0.map BtnInput.tick
          ++ (BtnInput.tick a
            :: (ts1.map BtnInput.tick
              ++ (BtnInput.recv 0x0515 infop
                :: BtnInput.tick b
                :: (ts3.map BtnInput.tick
                  ++ (BtnInput.recv 0x0611 ack1
                    :: BtnInput.tick c
                    :: (ts4.map BtnInput.tick
                      ++ [BtnInput.recv 0x0611 ack2])))))))
      = (c1S6 a b c,
         [(0x0514, word_le (a % 4294967296)),
          (0x0610, word_le (a % 4294967296) ++ hw_le 1 ++ [1, 0] ++ hw_le 0),
          (0x0610, word_le (a % 4294967296) ++ hw_le 2 ++ [1, 1] ++ hw_le 0)])
    ∧ (c1S6 a b c).button_queue = []
    ∧ (c1S6 a b c).inflight_seq = none
    ∧ (btn_run (queue_button_tap "1" idleBtnState)
        (ts0.map BtnInput.tick ++ [BtnInput.tick a])).1.session_pending = true := by
  have E0 : btn_run c1S0 (ts0.map BtnInput.tick) = (c1S0, []) :=
    btn_run_noops ts0 c1S0 (fun t htm => c1_tick0 t (h0 t htm))
  have E1 : btn_run (c1S1 a) (ts1.map BtnInput.tick) = (c1S1 a, []) :=
    btn_run_noops ts1 _ (fun t htm => c1_tick_pending a t (h1 t htm))
  have E3 : btn_run (c1S3 a b) (ts3.map BtnInput.tick) = (c1S3 a b, []) :=
    btn_run_noops ts3 _ (fun t htm => c1_tick_inflight1 a b t (h3 t htm))
  have E4 : btn_run (c1S5 a b c) (ts4.map BtnInput.tick) = (c1S5 a b c, []) :=
    btn_run_noops ts4 _ (fun t htm => c1_tick_inflight2 a b c t (h4 t htm))
  have T4 : btn_run (c1S5 a b c) (ts4.map BtnInput.tick ++ [BtnInput.recv 0x0611 ack2])
      = (c1S6 a b c, []) := by
    rw [btn_run_append, E4]
    have hstep : btn_step (c1S5 a b c) (BtnInput.recv 0x0611 ack2)
        = (c1S6 a b c, []) := by
      show (handle_msg 0x0611 ack2 (c1S5 a b c), ([] : List (Nat × List Nat))) = _
      rw [c1_recv_ack2 a b c ack2 hack2len hack2seq hack2st]
    simp [btn_run, hstep]
  have T3 : btn_run (c1S4 a b)
      (BtnInput.tick c :: (ts4.map BtnInput.tick ++ [BtnInput.recv 0x0611 ack2]))
      = (c1S6 a b c,
         [(0x0610, word_le (a % 4294967296) ++ hw_le 2 ++ [1, 1] ++ hw_le 0)]) := by
    have hstep : btn_step (c1S4 a b) (BtnInput.tick c)
        = (c1S5 a b c,
           [(0x0610, word_le (a % 4294967296) ++ hw_le 2 ++ [1, 1] ++ hw_le 0)]) :=
      c1_tick_release a b c hc
    simp [btn_run, hstep, T4]
  have T2 : btn_run (c1S3 a b)
      (ts3.map BtnInput.tick
        ++ (BtnInput.recv 0x0611 ack1 :: BtnInput.tick c
          :: (ts4.map BtnInput.tick ++ [BtnInput.recv 0x0611 ack2])))
      = (c1S6 a b c,
         [(0x0610, word_le (a % 4294967296) ++ hw_le 2 ++ [1, 1] ++ hw_le 0)]) := by
    rw [btn_run_append, E3]
    have hstep : btn_step (c1S3 a b) (BtnInput.recv 0x0611 ack1) = (c1S4 a b, []) := by
      show (handle_msg 0x0611 ack1 (c1S3 a b), ([] : List (Nat × List Nat))) = _
      rw [c1_recv_ack1 a b ack1 hack1len hack1seq hack1st]
    dsimp only
    rw [btn_run_cons, hstep]
    dsimp only
    rw [T3]
    rfl
  have T1 : btn_run (c1S2 a)
      (BtnInput.tick b
        :: (ts3.map BtnInput.tick
          ++ (BtnInput.recv 0x0611 ack1 :: BtnInput.tick c
            :: (ts4.map BtnInput.tick ++ [BtnInput.recv 0x0611 ack2]))))
      = (c1S6 a b c,
         [(0x0610, word_le (a % 4294967296) ++ hw_le 1 ++ [1, 0] ++ hw_le 0),
          (0x0610, word_le (a % 4294967296) ++ hw_le 2 ++ [1, 1] ++ hw_le 0)]) := by
    have hstep : btn_step (c1S2 a) (BtnInput.tick b)
        = (c1S3 a b,
           [(0x0610, word_le (a % 4294967296) ++ hw_le 1 ++ [1, 0] ++ hw_le 0)]) :=
      c1_tick_press a b hb
    simp [btn_run, hstep, T2]
  have T0 : btn_run (c1S1 a)
      (ts1.map BtnInput.tick
        ++ (BtnInput.recv 0x0515 infop
          :: BtnInput.tick b
          :: (ts3.map BtnInput.tick
            ++ (BtnInput.recv 0x0611 ack1 :: BtnInput.tick c
              :: (ts4.map BtnInput.tick ++ [BtnInput.recv 0x0611 ack2])))))
      = (c1S6 a b c,
         [(0x0610, word_le (a % 4294967296) ++ hw_le 1 ++ [1, 0] ++ hw_le 0),
          (0x0610, word_le (a % 4294967296) ++ hw_le 2 ++ [1, 1] ++ hw_le 0)]) := by
    rw [btn_run_append, E1]
    have hstep : btn_step (c1S1 a) (BtnInput.recv 0x0515 infop) = (c1S2 a, []) := by
      show (handle_msg 0x0515 infop (c1S1 a), ([] : List (Nat × List Nat))) = _
      rw [c1_recv_info a infop]
    dsimp only
    rw [btn_run_cons, hstep]
    dsimp only
    rw [T1]
    rfl
  have Ta : btn_run c1S0
      (BtnInput.tick a
        :: (ts1.map BtnInput.tick
          ++ (BtnInput.recv 0x0515 infop
            :: BtnInput.tick b
            :: (ts3.map BtnInput.tick
              ++ (BtnInput.recv 0x0611 ack1 :: BtnInput.tick c
                :: (ts4.map BtnInput.tick ++ [BtnInput.recv 0x0611 ack2]))))))
      = (c1S6 a b c,
         [(0x0514, word_le (a % 4294967296)),
          (0x0610, word_le (a % 4294967296) ++ hw_le 1 ++ [1, 0] ++ hw_le 0),
          (0x0610, word_le (a % 4294967296) ++ hw_le 2 ++ [1, 1] ++ hw_le 0)]) := by
    have hstep : btn_step c1S0 (BtnInput.tick a)
        = (c1S1 a, [(0x0514, word_le (a % 4294967296))]) :=
      c1_tick_init a ha
    simp [btn_run, hstep, T0]
  refine ⟨?_, rfl, rfl, ?_⟩
  · rw [c1_start, btn_run_append, E0]
    simp [Ta]
  · rw [c1_start, btn_run_append, E0]
    have hstep : btn_step c1S0 (BtnInput.tick a)
        = (c1S1 a, [(0x0514, word_le (a % 4294967296))]) :=
      c1_tick_init a ha
    simp [btn_run, hstep]
    rfl

/-- Witness for C1 with no extra no-op ticks and all times 300. -/
theorem C1_single_tap_flow_witness :
    btn_run (queue_button_tap "1" idleBtnState)
        (([] : List Nat).map BtnInput.tick
          ++ (BtnInput.tick 300
            :: (([] : List Nat).map BtnInput.tick
              ++ (BtnInput.recv 0x0515 []
                :: BtnInput.tick 300
                :: (([] : List Nat).map BtnInput.tick
                  ++ (BtnInput.recv 0x0611 [1, 0, 0, 0]
                    :: BtnInput.tick 300
                    :: (([] : List Nat).map BtnInput.tick
                      ++ [BtnInput.recv 0x0611 [2, 0, 0, 0]])))))))
      = (c1S6 300 300 300,
         [(0x0514, word_le (300 % 4294967296)),
          (0x0610, word_le (300 % 4294967296) ++ hw_le 1 ++ [1, 0] ++ hw_le 0),
          (0x0610, word_le (300 % 4294967296) ++ hw_le 2 ++ [1, 1] ++ hw_le 0)])
    ∧ (c1S6 300 300 300).button_queue = []
    ∧ (c1S6 300 300 300).inflight_seq = none
    ∧ (btn_run (queue_button_tap "1" idleBtnState)
        (([] : List Nat).map BtnInput.tick ++ [BtnInput.tick 300])).1.session_pending
        = true :=
  C1_single_tap_flow [] [] [] [] 300 300 300 [] [1, 0, 0, 0] [2, 0, 0, 0]
    (by simp) (by omega) (by simp) (by omega) (by simp)
    (by decide) (by decide) (by decide)
    (by omega) (by simp) (by decide) (by decide) (by decide)
